import Mathlib

/-!
Verification of the distributed-tensorflow-framework coordination-layer
specification. The source of the repository is a notebook skeleton; the
parameter-server coordination core described by the spec (ParameterStore,
WorkerAgent, CheckpointManager, LifecycleCoordinator) is not present under
src, so those components are modelled from the words of the spec. The code of
the notebook itself (the is_chief expressions and the server.join call in
the ps branch) is
embedded directly from the source.
-/

namespace DTF

/-! ## Notebook embedding (from src/distributed_tensorflow_framework.ipynb) -/

/-- From the final skeleton cell of the notebook: the MonitoredTrainingSession
argument is written there as the expression task_index == task_index. -/
def is_chief (task_index : Nat) : Bool := task_index == task_index

/-- From the earlier example cell of the notebook: the MonitoredTrainingSession
argument is written there as task_index == 0, with the comment
"appoint worker 0 as chief worker". -/
def is_chief_example_cell (task_index : Nat) : Bool := task_index == 0

/-- State of the parameter-server process in the notebook skeleton: the ps
branch prints a message and then calls server.join. -/
inductive PsProc
  | joining
  | exited
deriving DecidableEq

/-- Modelled from the spec: tf.train.Server.join (called by the ps branch of
the notebook skeleton) blocks indefinitely and never returns; one scheduler
step of the blocked ps process therefore leaves it in the joining state. -/
def psStep : PsProc → PsProc
  | PsProc.joining => PsProc.joining
  | PsProc.exited => PsProc.exited

/-- The ps process of the notebook skeleton after n scheduler steps. -/
def psRun : Nat → PsProc
  | 0 => PsProc.joining
  | n + 1 => psStep (psRun n)

/-- The proposition that the ps process of the notebook skeleton eventually exits. -/
def psJoinExits : Prop := ∃ n, psRun n = PsProc.exited

/-! ## ParameterStore (modelled from the spec) -/

deriving instance DecidableEq for Except

/-- Modelled from the spec: a ParameterBlock is an opaque value blob together
with a monotonically increasing version counter. The opaque numeric value is
modelled as an integer: the merge operation is addition, which is the
commutative-associative accumulation the spec requires, and the scenario
values 10.0, 1.0, 2.0, 13.0 are integral, so they are represented exactly. -/
structure ParameterBlock where
  value : Int
  version : Nat
deriving DecidableEq, Repr

/-- Modelled from the spec: the ParameterStore holds the mutable
parameter-block state, keyed by identifier, together with the GlobalStep
counter, a single shared counter owned exclusively by the ParameterStore. -/
structure ParameterStore where
  blocks : List (String × ParameterBlock)
  globalStep : Nat
deriving DecidableEq, Repr

/-- Modelled from the spec: error taxonomy of the store operations. -/
inductive PsError
  | UnknownParameterError
deriving DecidableEq, Repr

/-- Look up a block by identifier. -/
def findBlock : List (String × ParameterBlock) → String → Option ParameterBlock
  | [], _ => none
  | (k, b) :: rest, id => if k = id then some b else findBlock rest id

/-- Apply a function to the block with the given identifier, leaving all
other blocks untouched. -/
def updateBlock : List (String × ParameterBlock) → String →
    (ParameterBlock → ParameterBlock) → List (String × ParameterBlock)
  | [], _, _ => []
  | (k, b) :: rest, id, f =>
    if k = id then (k, f b) :: rest else (k, b) :: updateBlock rest id f

/-- Modelled from the spec: push applies delta as a commutative-associative
accumulation to the current value regardless of whether baseVersion is still
current (no conflict rejection), bumps the version of the block, and increments
GlobalStep by exactly one, atomically with the value mutation; an unknown
identifier fails with UnknownParameterError. -/
def push (s : ParameterStore) (id : String) (delta : Int) (baseVersion : Nat) :
    Except PsError (Nat × ParameterStore) :=
  match findBlock s.blocks id with
  | none => Except.error PsError.UnknownParameterError
  | some b =>
    -- baseVersion is deliberately not consulted: stale-read pushes are accepted
    let _ := baseVersion
    Except.ok (b.version + 1,
      { blocks := updateBlock s.blocks id
          (fun blk => { value := blk.value + delta, version := blk.version + 1 }),
        globalStep := s.globalStep + 1 })

/-- Modelled from the spec: pull returns the latest committed (value, version)
pair of each requested block; an unknown identifier fails with
UnknownParameterError. It is a pure read and mutates nothing. -/
def pull (s : ParameterStore) : List String → Except PsError (List (String × Int × Nat))
  | [] => Except.ok []
  | id :: rest =>
    match findBlock s.blocks id with
    | none => Except.error PsError.UnknownParameterError
    | some b =>
      match pull s rest with
      | Except.error e => Except.error e
      | Except.ok m => Except.ok ((id, b.value, b.version) :: m)

/-- Serial application of a list of pushes (delta, baseVersion) to one block:
the order in which racing pushes to a single block were committed under the
per-block lock. -/
def applyPushes (s : ParameterStore) (id : String) :
    List (Int × Nat) → Except PsError ParameterStore
  | [] => Except.ok s
  | (d, bv) :: rest =>
    match push s id d bv with
    | Except.error e => Except.error e
    | Except.ok (_, s') => applyPushes s' id rest

/-- Store of the two-worker scenario in the spec: block w1 at value 10.0,
version 3. -/
def w1Store : ParameterStore :=
  { blocks := [("w1", { value := 10, version := 3 })], globalStep := 0 }

/-! ## Helper lemmas about the store primitives -/

theorem findBlock_updateBlock_self (bl : List (String × ParameterBlock)) (id : String)
    (f : ParameterBlock → ParameterBlock) (b : ParameterBlock)
    (h : findBlock bl id = some b) :
    findBlock (updateBlock bl id f) id = some (f b) := by
  induction bl with
  | nil => simp [findBlock] at h
  | cons p rest ih =>
    obtain ⟨k, blk⟩ := p
    by_cases hk : k = id
    · subst hk
      simp [findBlock, updateBlock] at h ⊢
      simp [h]
    · simp [findBlock, updateBlock, hk] at h ⊢
      exact ih h

theorem findBlock_updateBlock_ne (bl : List (String × ParameterBlock)) (id j : String)
    (f : ParameterBlock → ParameterBlock) (h : j ≠ id) :
    findBlock (updateBlock bl id f) j = findBlock bl j := by
  induction bl with
  | nil => simp [findBlock, updateBlock]
  | cons p rest ih =>
    obtain ⟨k, blk⟩ := p
    by_cases hk : k = id
    · subst hk
      simp [findBlock, updateBlock, h, Ne.symm h]
    · simp [findBlock, updateBlock, hk]
      by_cases hj : k = j
      · simp [hj]
      · simp [hj, ih]

theorem updateBlock_updateBlock (bl : List (String × ParameterBlock)) (id : String)
    (f g : ParameterBlock → ParameterBlock) :
    updateBlock (updateBlock bl id f) id g = updateBlock bl id (fun b => g (f b)) := by
  induction bl with
  | nil => simp [updateBlock]
  | cons p rest ih =>
    obtain ⟨k, blk⟩ := p
    by_cases hk : k = id
    · simp [updateBlock, hk]
    · simp [updateBlock, hk, ih]

theorem updateBlock_id (bl : List (String × ParameterBlock)) (id : String) :
    updateBlock bl id (fun b => b) = bl := by
  induction bl with
  | nil => simp [updateBlock]
  | cons p rest ih =>
    obtain ⟨k, blk⟩ := p
    by_cases hk : k = id
    · simp [updateBlock, hk]
    · simp [updateBlock, hk, ih]

theorem push_eq_ok (s : ParameterStore) (id : String) (delta : Int) (bv v : Nat)
    (s' : ParameterStore) :
    push s id delta bv = Except.ok (v, s') ↔
      ∃ b, findBlock s.blocks id = some b ∧ v = b.version + 1
        ∧ s' = { blocks := updateBlock s.blocks id
                   (fun blk => { value := blk.value + delta, version := blk.version + 1 }),
                 globalStep := s.globalStep + 1 } := by
  unfold push
  cases h : findBlock s.blocks id with
  | none => simp
  | some b =>
    simp only [Except.ok.injEq, Prod.mk.injEq, Option.some.injEq]
    constructor
    · rintro ⟨hv, hs⟩
      exact ⟨b, rfl, hv.symm, hs.symm⟩
    · rintro ⟨b', hb', hv, hs⟩
      cases hb'
      exact ⟨hv.symm, hs.symm⟩

theorem applyPushes_eq (l : List (Int × Nat)) (bl : List (String × ParameterBlock))
    (gs : Nat) (id : String) (b : ParameterBlock) (h : findBlock bl id = some b) :
    applyPushes { blocks := bl, globalStep := gs } id l =
      Except.ok
        { blocks :=
            updateBlock bl id
              (fun blk => { value := blk.value + (l.map Prod.fst).sum,
                            version := blk.version + l.length }),
          globalStep := gs + l.length } := by
  induction l generalizing bl gs b with
  | nil =>
    have hf : (fun blk : ParameterBlock =>
        ParameterBlock.mk (blk.value + (([] : List (Int × Nat)).map Prod.fst).sum)
          (blk.version + ([] : List (Int × Nat)).length)) = fun blk => blk := by
      funext blk
      simp
    rw [applyPushes, hf, updateBlock_id]
    rfl
  | cons p rest ih =>
    obtain ⟨d, bv⟩ := p
    have hpush : push { blocks := bl, globalStep := gs } id d bv =
        Except.ok (b.version + 1,
          { blocks := updateBlock bl id
              (fun blk => { value := blk.value + d, version := blk.version + 1 }),
            globalStep := gs + 1 }) := by
      rw [push_eq_ok]
      exact ⟨b, h, rfl, rfl⟩
    have hfind : findBlock (updateBlock bl id
        (fun blk => ParameterBlock.mk (blk.value + d) (blk.version + 1))) id =
        some (ParameterBlock.mk (b.value + d) (b.version + 1)) :=
      findBlock_updateBlock_self bl id _ b h
    have hIH := ih (updateBlock bl id
        (fun blk => ParameterBlock.mk (blk.value + d) (blk.version + 1)))
      (gs + 1) (ParameterBlock.mk (b.value + d) (b.version + 1)) hfind
    rw [applyPushes, hpush]
    show applyPushes
        { blocks := updateBlock bl id
            (fun blk => ParameterBlock.mk (blk.value + d) (blk.version + 1)),
          globalStep := gs + 1 } id rest = _
    rw [hIH, updateBlock_updateBlock]
    have hfun : (fun blk : ParameterBlock =>
        ParameterBlock.mk ((blk.value + d) + (rest.map Prod.fst).sum)
          ((blk.version + 1) + rest.length)) =
        (fun blk : ParameterBlock =>
        ParameterBlock.mk (blk.value + (((d, bv) :: rest).map Prod.fst).sum)
          (blk.version + ((d, bv) :: rest).length)) := by
      funext blk
      simp only [ParameterBlock.mk.injEq, List.map_cons, List.sum_cons, List.length_cons]
      constructor
      · ring
      · omega
    simp only [Except.ok.injEq, ParameterStore.mk.injEq]
    constructor
    · show updateBlock bl id (fun blk =>
          ParameterBlock.mk ((blk.value + d) + (rest.map Prod.fst).sum)
            ((blk.version + 1) + rest.length)) = _
      rw [hfun]
    · simp only [List.length_cons]
      omega

/-! ## Store-level traces and the WorkerAgent push retry loop -/

/-- Modelled from the spec: the operations a worker may issue against the
store. A push carries its delta and the (possibly stale) base version; a
pull carries the requested identifiers. -/
inductive StoreOp
  | pushOp (id : String) (delta : Int) (baseVersion : Nat)
  | pullOp (ids : List String)
deriving DecidableEq, Repr

/-- Effect of one operation on the store: an accepted push installs the new
state, a failed push (unknown identifier) leaves the store untouched, and a
pull is a pure read that mutates nothing. -/
def runOp (s : ParameterStore) : StoreOp → ParameterStore
  | StoreOp.pushOp id delta bv =>
    match push s id delta bv with
    | Except.error _ => s
    | Except.ok (_, s') => s'
  | StoreOp.pullOp _ => s

/-- Effect of a serialised sequence of operations on the store. -/
def runOps (s : ParameterStore) : List StoreOp → ParameterStore
  | [] => s
  | op :: rest => runOps (runOp s op) rest

/-- Version counter of the block with the given identifier (0 when the
identifier is unknown). -/
def blockVersion (s : ParameterStore) (id : String) : Nat :=
  match findBlock s.blocks id with
  | none => 0
  | some b => b.version

/-- Modelled from the spec: the PUSHING phase of a WorkerAgent retries a push
over a bounded schedule of attempts (with exponential backoff between them,
which does not affect the state outcome); each entry of the schedule records
whether that communication attempt reaches the store. When every attempt
fails, the worker escalates a fatal worker failure and no delta reaches the
store. -/
def pushWithRetry (attempts : List Bool) (s : ParameterStore) (id : String)
    (delta : Int) (baseVersion : Nat) : Option Nat × ParameterStore :=
  match attempts with
  | [] => (none, s)
  | reached :: rest =>
    if reached then
      match push s id delta baseVersion with
      | Except.error _ => (none, s)
      | Except.ok (v, s') => (some v, s')
    else pushWithRetry rest s id delta baseVersion

theorem pull_ok_mem (ids : List String) (s : ParameterStore)
    (out : List (String × Int × Nat)) (h : pull s ids = Except.ok out) :
    ∀ p ∈ out, findBlock s.blocks p.1 = some { value := p.2.1, version := p.2.2 } := by
  induction ids generalizing out with
  | nil =>
    rw [pull] at h
    cases h
    intro p hp
    simp at hp
  | cons id rest ih =>
    rw [pull] at h
    cases hfb : findBlock s.blocks id with
    | none => rw [hfb] at h; cases h
    | some b =>
      rw [hfb] at h
      cases hrest : pull s rest with
      | error e => rw [hrest] at h; cases h
      | ok m =>
        rw [hrest] at h
        cases h
        intro p hp
        rcases List.mem_cons.mp hp with hhead | htail
        · subst hhead
          exact hfb
        · exact ih m hrest p htail

theorem blockVersion_le_runOp (s : ParameterStore) (op : StoreOp) (j : String) :
    blockVersion s j ≤ blockVersion (runOp s op) j := by
  cases op with
  | pullOp ids => exact Nat.le_refl _
  | pushOp id delta bv =>
    rw [runOp]
    cases hp : push s id delta bv with
    | error e => exact Nat.le_refl _
    | ok r =>
      obtain ⟨v, s'⟩ := r
      rw [push_eq_ok] at hp
      obtain ⟨b, hb, hv, hs⟩ := hp
      subst hs
      by_cases hj : j = id
      · subst hj
        have := findBlock_updateBlock_self s.blocks j
          (fun blk => ParameterBlock.mk (blk.value + delta) (blk.version + 1)) b hb
        simp [blockVersion, hb, this]
      · have := findBlock_updateBlock_ne s.blocks id j
          (fun blk => ParameterBlock.mk (blk.value + delta) (blk.version + 1)) hj
        simp [blockVersion, this]

theorem blockVersion_le_runOps (ops : List StoreOp) (s : ParameterStore) (j : String) :
    blockVersion s j ≤ blockVersion (runOps s ops) j := by
  induction ops generalizing s with
  | nil => exact Nat.le_refl _
  | cons op rest ih =>
    rw [runOps]
    exact Nat.le_trans (blockVersion_le_runOp s op j) (ih (runOp s op))

theorem pushWithRetry_all_failed (attempts : List Bool) (s : ParameterStore)
    (id : String) (delta : Int) (bv : Nat) (h : ∀ a ∈ attempts, a = false) :
    pushWithRetry attempts s id delta bv = (none, s) := by
  induction attempts with
  | nil => rw [pushWithRetry]
  | cons a rest ih =>
    have ha : a = false := h a (List.mem_cons_self a rest)
    rw [pushWithRetry, ha]
    simp only [Bool.false_eq_true, if_false]
    exact ih (fun x hx => h x (List.mem_cons_of_mem a hx))

theorem psRun_joining (n : Nat) : psRun n = PsProc.joining := by
  induction n with
  | zero => rfl
  | succ m ih => rw [psRun, ih]; rfl

/-! ## CheckpointManager (modelled from the spec) -/

/-- Modelled from the spec: a Checkpoint is an immutable snapshot of the
global step together with the full set of ParameterBlocks at the time of the
snapshot. -/
structure Checkpoint where
  global_step : Nat
  blocks : List (String × ParameterBlock)
deriving DecidableEq, Repr

/-- Modelled from the spec: snapshot reads all ParameterBlocks and the
GlobalStep of the store into an immutable Checkpoint. -/
def snapshot (s : ParameterStore) : Checkpoint :=
  { global_step := s.globalStep, blocks := s.blocks }

/-- Modelled from the spec: a checkpoint blob in the persistence store, keyed
by global step, together with its completion marker; the marker is absent
exactly when the write was partial, which is how corruption is detected. -/
structure CheckpointEntry where
  ckpt : Checkpoint
  markerPresent : Bool
deriving DecidableEq, Repr

/-- Modelled from the spec: error raised when the loaded checkpoint is
partially written. -/
inductive RecoverError
  | CorruptCheckpointError
deriving DecidableEq, Repr

/-- Modelled from the spec: loading a single stored checkpoint yields its
payload when the completion marker is present and fails with
CorruptCheckpointError when the marker is absent. -/
def loadEntry (e : CheckpointEntry) : Except RecoverError Checkpoint :=
  if e.markerPresent then Except.ok e.ckpt
  else Except.error RecoverError.CorruptCheckpointError

/-- Modelled from the spec: recover walks the checkpoint directory from the
most recent entry to the oldest: it loads the most recent checkpoint, on
CorruptCheckpointError falls back to the next-most-recent one, and returns
none when no entry remains (fresh start). The directory list is ordered most
recent first. -/
def recover : List CheckpointEntry → Option Checkpoint
  | [] => none
  | e :: older =>
    match loadEntry e with
    | Except.ok c => some c
    | Except.error _ => recover older

/-- Modelled from the spec: recovery installs the checkpointed blocks and
resumes the GlobalStep counter at the recorded step. -/
def restore (c : Checkpoint) : ParameterStore :=
  { blocks := c.blocks, globalStep := c.global_step }

/-- Directory ordering used by recover: steps are non-increasing from the
most recent entry to the oldest. -/
def MostRecentFirst (dir : List CheckpointEntry) : Prop :=
  dir.Pairwise (fun a b => b.ckpt.global_step ≤ a.ckpt.global_step)

theorem recover_none_iff (dir : List CheckpointEntry) :
    recover dir = none ↔ ∀ e ∈ dir, e.markerPresent = false := by
  induction dir with
  | nil => simp [recover]
  | cons e older ih =>
    rw [recover, loadEntry]
    by_cases hm : e.markerPresent
    · simp [hm]
    · simp [hm, ih]

theorem recover_some (dir : List CheckpointEntry) (c : Checkpoint)
    (hsorted : MostRecentFirst dir) (h : recover dir = some c) :
    ∃ e ∈ dir, e.markerPresent = true ∧ e.ckpt = c
      ∧ ∀ e' ∈ dir, e'.markerPresent = true → e'.ckpt.global_step ≤ c.global_step := by
  induction dir with
  | nil => simp [recover] at h
  | cons e older ih =>
    rw [recover, loadEntry] at h
    by_cases hm : e.markerPresent
    · simp [hm] at h
      subst h
      refine ⟨e, List.mem_cons_self e older, hm, rfl, ?_⟩
      intro e' he' _
      rcases List.mem_cons.mp he' with rfl | htail
      · exact Nat.le_refl _
      · exact (List.pairwise_cons.mp hsorted).1 e' htail
    · simp [hm] at h
      obtain ⟨f, hf, hfm, hfc, hmax⟩ := ih (List.pairwise_cons.mp hsorted).2 h
      refine ⟨f, List.mem_cons_of_mem e hf, hfm, hfc, ?_⟩
      intro e' he' he'm
      rcases List.mem_cons.mp he' with rfl | htail
      · simp at hm
        rw [hm] at he'm
        cases he'm
      · exact hmax e' htail he'm

theorem globalStep_le_runOp (s : ParameterStore) (op : StoreOp) :
    s.globalStep ≤ (runOp s op).globalStep := by
  cases op with
  | pullOp ids => exact Nat.le_refl _
  | pushOp id delta bv =>
    rw [runOp]
    cases hp : push s id delta bv with
    | error e => exact Nat.le_refl _
    | ok r =>
      obtain ⟨v, s'⟩ := r
      rw [push_eq_ok] at hp
      obtain ⟨b, hb, hv, hs⟩ := hp
      subst hs
      exact Nat.le_succ _

theorem globalStep_le_runOps (ops : List StoreOp) (s : ParameterStore) :
    s.globalStep ≤ (runOps s ops).globalStep := by
  induction ops generalizing s with
  | nil => exact Nat.le_refl _
  | cons op rest ih =>
    rw [runOps]
    exact Nat.le_trans (globalStep_le_runOp s op) (ih (runOp s op))

/-! ## Claim theorems -/

/-- C1: for every finite set of concurrent push operations to the same
ParameterBlock with commutative-associative deltas (serialised, per the
per-block lock, in an arbitrary commit order), the final stored value equals
the initial value with the deltas applied in some serial order — any two
commit orders yield the same store — and each accepted push increments
GlobalStep by exactly one, atomically with the value mutation (the increment
and the mutation happen in the same push result). -/
theorem c1_push_order_independent (s : ParameterStore) (id : String) (b : ParameterBlock)
    (h : findBlock s.blocks id = some b) (l1 l2 : List (Int × Nat)) (hp : l1.Perm l2) :
    applyPushes s id l1 = applyPushes s id l2
    ∧ (∀ delta bv v s', push s id delta bv = Except.ok (v, s') →
        s'.globalStep = s.globalStep + 1)
    ∧ applyPushes s id l1 =
        Except.ok
          { blocks :=
              updateBlock s.blocks id
                (fun blk => { value := blk.value + (l1.map Prod.fst).sum,
                              version := blk.version + l1.length }),
            globalStep := s.globalStep + l1.length } := by
  obtain ⟨bl, gs⟩ := s
  refine ⟨?_, ?_, applyPushes_eq l1 bl gs id b h⟩
  · rw [applyPushes_eq l1 bl gs id b h, applyPushes_eq l2 bl gs id b h]
    have hsum : (l1.map Prod.fst).sum = (l2.map Prod.fst).sum :=
      (hp.map Prod.fst).sum_eq
    have hlen : l1.length = l2.length := hp.length_eq
    rw [hsum, hlen]
  · intro delta bv v s' hpush
    rw [push_eq_ok] at hpush
    obtain ⟨b', _, _, hs⟩ := hpush
    rw [hs]

/-- Witness for C1 at the two-worker scenario of the spec: the two commit
orders of the racing pushes +1.0 and +2.0 yield the same final store. -/
theorem c1_push_order_independent_witness :
    applyPushes w1Store "w1" [(1, 3), (2, 3)] = applyPushes w1Store "w1" [(2, 3), (1, 3)] :=
  (c1_push_order_independent w1Store "w1" { value := 10, version := 3 } (by decide)
    [(1, 3), (2, 3)] [(2, 3), (1, 3)] (by decide)).1

/-- C2: if two workers both pull block w1 at version 3 with value 10.0, and
worker A pushes delta +1.0 while worker B pushes delta +2.0, each push
accepted without conflict rejection despite the stale baseVersion 3, then in
either push order the final stored value of w1 is 13.0 and its version is 5. -/
theorem c2_two_worker_scenario :
    pull w1Store ["w1"] = Except.ok [("w1", 10, 3)]
    ∧ applyPushes w1Store "w1" [(1, 3), (2, 3)] =
        Except.ok { blocks := [("w1", { value := 13, version := 5 })], globalStep := 2 }
    ∧ applyPushes w1Store "w1" [(2, 3), (1, 3)] =
        Except.ok { blocks := [("w1", { value := 13, version := 5 })], globalStep := 2 } := by
  refine ⟨by decide, by decide, by decide⟩

/-- Store reached from the scenario store after one accepted push of delta
+1.0 against base version 3. -/
def w1After : ParameterStore :=
  { blocks := [("w1", { value := 11, version := 4 })], globalStep := 1 }

/-- C3: for every ParameterBlock the version counter strictly increases on
every accepted push and all other blocks keep their state, every value and
version pair returned by pull is the committed state of that block at the
time of the call, a pull never changes the store, and no operation ever
decreases a version (hence versions never repeat across accepted updates). -/
theorem c3_version_strictly_increases :
    (∀ (s : ParameterStore) (id : String) (delta : Int) (bv v : Nat) (s' : ParameterStore),
        push s id delta bv = Except.ok (v, s') →
        ∃ b, findBlock s.blocks id = some b
          ∧ findBlock s'.blocks id = some { value := b.value + delta, version := b.version + 1 }
          ∧ blockVersion s id < blockVersion s' id
          ∧ ∀ j, j ≠ id → findBlock s'.blocks j = findBlock s.blocks j)
    ∧ (∀ (s : ParameterStore) (ids : List String) (out : List (String × Int × Nat)),
        pull s ids = Except.ok out →
        ∀ p ∈ out, findBlock s.blocks p.1 = some { value := p.2.1, version := p.2.2 })
    ∧ (∀ (s : ParameterStore) (ids : List String), runOp s (StoreOp.pullOp ids) = s)
    ∧ (∀ (s : ParameterStore) (ops : List StoreOp) (id : String),
        blockVersion s id ≤ blockVersion (runOps s ops) id) := by
  refine ⟨?_, ?_, ?_, ?_⟩
  · intro s id delta bv v s' hp
    rw [push_eq_ok] at hp
    obtain ⟨b, hb, hv, hs⟩ := hp
    subst hs
    refine ⟨b, hb, ?_, ?_, ?_⟩
    · exact findBlock_updateBlock_self s.blocks id _ b hb
    · have hfind := findBlock_updateBlock_self s.blocks id
        (fun blk => ParameterBlock.mk (blk.value + delta) (blk.version + 1)) b hb
      simp [blockVersion, hb, hfind]
    · intro j hj
      exact findBlock_updateBlock_ne s.blocks id j _ hj
  · intro s ids out h
    exact pull_ok_mem ids s out h
  · intro s ids
    rfl
  · intro s ops id
    exact blockVersion_le_runOps ops s id

/-- Witness for C3: the accepted scenario push of +1.0 takes block w1 from
version 3 to version 4 while leaving every other identifier unchanged. -/
theorem c3_version_strictly_increases_witness :
    ∃ b, findBlock w1Store.blocks "w1" = some b
      ∧ findBlock w1After.blocks "w1" = some { value := b.value + 1, version := b.version + 1 }
      ∧ blockVersion w1Store "w1" < blockVersion w1After "w1"
      ∧ ∀ j, j ≠ "w1" → findBlock w1After.blocks j = findBlock w1Store.blocks j :=
  c3_version_strictly_increases.1 w1Store "w1" 1 3 4 w1After (by decide)

/-- C4: a worker whose PUSHING phase fails on every attempt of its bounded
retry schedule leaves the ParameterStore (all block values, versions, and
GlobalStep) exactly as it was before the failed push was attempted: no
partial delta is applied. -/
theorem c4_failed_push_leaves_store_unchanged (attempts : List Bool)
    (s : ParameterStore) (id : String) (delta : Int) (bv : Nat)
    (h : ∀ a ∈ attempts, a = false) :
    pushWithRetry attempts s id delta bv = (none, s) :=
  pushWithRetry_all_failed attempts s id delta bv h

/-- Witness for C4: three failed attempts to push +1.0 to w1 leave the
scenario store untouched. -/
theorem c4_failed_push_leaves_store_unchanged_witness :
    pushWithRetry [false, false, false] w1Store "w1" 1 3 = (none, w1Store) :=
  c4_failed_push_leaves_store_unchanged [false, false, false] w1Store "w1" 1 3 (by decide)

/-- C10: in the final skeleton the is_chief argument of
MonitoredTrainingSession is the expression task_index == task_index, which
evaluates to true for every task_index, so every worker process is
designated chief; only the earlier example cell restricts chief status to
worker 0 as its comment states. -/
theorem c10_every_worker_is_chief (task_index : Nat) :
    is_chief task_index = true
    ∧ (is_chief_example_cell task_index = true ↔ task_index = 0) := by
  constructor
  · simp [is_chief]
  · simp [is_chief_example_cell]

/-- Witness for C10: worker 1 is designated chief by the skeleton even
though the earlier example cell would not appoint it. -/
theorem c10_every_worker_is_chief_witness :
    is_chief 1 = true ∧ (is_chief_example_cell 1 = true ↔ 1 = 0) :=
  c10_every_worker_is_chief 1

/-- Complete checkpoint of the recovery scenario, taken at step 40. -/
def ckpt40 : Checkpoint :=
  { global_step := 40, blocks := [("w1", { value := 10, version := 3 })] }

/-- Directory of the recovery scenario: a checkpoint at step 50 whose
completion marker is missing, then a complete checkpoint at step 40. -/
def dir5040 : List CheckpointEntry :=
  [ { ckpt := { global_step := 50, blocks := [] }, markerPresent := false },
    { ckpt := ckpt40, markerPresent := true } ]

/-- Directory holding exactly one checkpoint, at step 50, whose completion
marker is missing. -/
def corruptOnlyDir : List CheckpointEntry :=
  [ { ckpt := { global_step := 50, blocks := [] }, markerPresent := false } ]

/-- C5 counterexample: the clause that recover returns none only when no
checkpoint exists fails at a directory holding one partially written
checkpoint at step 50: every stored checkpoint there lacks its completion
marker, so recover exhausts its fallback chain and returns none although the
directory is not empty. -/
theorem c5_counterexample : recover corruptOnlyDir = none ∧ corruptOnlyDir ≠ [] := by
  decide

/-- C5 (amended): recover returns the most recent complete checkpoint: a
checkpoint whose completion marker is absent raises CorruptCheckpointError
internally and recover falls back to the next-most-recent entry; recover
returns none exactly when no complete checkpoint exists (not merely when the
directory is empty); and on the scenario directory with a marker-missing
checkpoint at step 50 and a complete checkpoint at step 40, recover returns
the step-40 checkpoint. -/
theorem c5_recover_most_recent_complete (dir : List CheckpointEntry) (c : Checkpoint)
    (hsorted : MostRecentFirst dir) (h : recover dir = some c) :
    (∃ e ∈ dir, e.markerPresent = true ∧ e.ckpt = c
       ∧ ∀ e' ∈ dir, e'.markerPresent = true → e'.ckpt.global_step ≤ c.global_step)
    ∧ (∀ dir' : List CheckpointEntry,
        (recover dir' = none ↔ ∀ e ∈ dir', e.markerPresent = false))
    ∧ (∀ e : CheckpointEntry, e.markerPresent = false →
        loadEntry e = Except.error RecoverError.CorruptCheckpointError)
    ∧ (∀ (e : CheckpointEntry) (older : List CheckpointEntry), e.markerPresent = false →
        recover (e :: older) = recover older)
    ∧ recover dir5040 = some ckpt40 := by
  refine ⟨recover_some dir c hsorted h, recover_none_iff, ?_, ?_, by decide⟩
  · intro e he
    simp [loadEntry, he]
  · intro e older he
    rw [recover, loadEntry, he]
    simp

/-- Witness for C5 (amended) at the scenario directory: the complete step-40
entry is what recover returns, and it is the most recent complete entry. -/
theorem c5_recover_most_recent_complete_witness :
    ∃ e ∈ dir5040, e.markerPresent = true ∧ e.ckpt = ckpt40
      ∧ ∀ e' ∈ dir5040, e'.markerPresent = true → e'.ckpt.global_step ≤ ckpt40.global_step :=
  (c5_recover_most_recent_complete dir5040 ckpt40
    (by show dir5040.Pairwise _; decide) (by decide)).1

/-- C6: after recovery from a checkpoint recording global_step N the process
resumes with GlobalStep equal to N, hence at least N, and since every
subsequent store operation preserves or increments the counter, no later
point of the resumed run brings GlobalStep below the checkpointed step. -/
theorem c6_recovery_resumes_at_step (c : Checkpoint) (ops : List StoreOp) :
    (restore c).globalStep = c.global_step
    ∧ c.global_step ≤ (restore c).globalStep
    ∧ c.global_step ≤ (runOps (restore c) ops).globalStep := by
  refine ⟨rfl, Nat.le_refl _, ?_⟩
  exact globalStep_le_runOps ops (restore c)

/-- Witness for C6: recovering the step-40 checkpoint resumes at GlobalStep
40 and a further accepted push keeps the counter at 40 or above. -/
theorem c6_recovery_resumes_at_step_witness :
    (restore ckpt40).globalStep = ckpt40.global_step
    ∧ ckpt40.global_step ≤ (restore ckpt40).globalStep
    ∧ ckpt40.global_step ≤ (runOps (restore ckpt40) [StoreOp.pushOp "w1" 1 3]).globalStep :=
  c6_recovery_resumes_at_step ckpt40 [StoreOp.pushOp "w1" 1 3]

/-! ## LifecycleCoordinator (modelled from the spec) -/

/-- Modelled from the spec: process-wide lifecycle state tracked by the
LifecycleCoordinator. -/
inductive CoordState
  | running
  | stopping
  | stopped
deriving DecidableEq, Repr

/-- Modelled from the spec: observable events of the shutdown procedure, in
the order the LifecycleCoordinator produces them. -/
inductive SEvent
  | broadcastStop
  | workerStopped (i : Nat)
  | workerAbandoned (i : Nat)
  | finalSnapshot (c : Checkpoint)
  | coordStopped
  | psExit
deriving DecidableEq, Repr

/-- Whether an event is a checkpoint write. -/
def isSnapshotEvent : SEvent → Bool
  | SEvent.finalSnapshot _ => true
  | _ => false

/-- Modelled from the spec: outcome of waiting for the workers (indexed from
i, each with its stop latency) after the stop broadcast: a worker whose
latency is within the grace period reaches STOPPED; a slower one is forcibly
abandoned and logged rather than awaited indefinitely. -/
def workerStopEvents (grace : Nat) : Nat → List Nat → List SEvent
  | _, [] => []
  | i, lat :: rest =>
    (if lat ≤ grace then SEvent.workerStopped i else SEvent.workerAbandoned i)
      :: workerStopEvents grace (i + 1) rest

/-- Modelled from the spec: the LifecycleCoordinator observes GlobalStep; once
it reaches the configured target the coordinator leaves RUNNING via STOPPING,
broadcasts stop to all WorkerAgents, waits for each agent bounded by the
grace period, triggers the single final snapshot, transitions to STOPPED,
and only then lets the parameter-server process exit; before the target is
reached it stays RUNNING and produces no event. -/
def coordinatorObserve (target grace : Nat) (latencies : List Nat)
    (s : ParameterStore) : CoordState × List SEvent :=
  if target ≤ s.globalStep then
    (CoordState.stopped,
      SEvent.broadcastStop :: (workerStopEvents grace 0 latencies
        ++ [SEvent.finalSnapshot (snapshot s), SEvent.coordStopped, SEvent.psExit]))
  else (CoordState.running, [])

theorem workerStopEvents_all_stopped (grace : Nat) (lats : List Nat) (k : Nat)
    (h : ∀ d ∈ lats, d ≤ grace) :
    ∀ e ∈ workerStopEvents grace k lats, ∃ i, e = SEvent.workerStopped i := by
  induction lats generalizing k with
  | nil =>
    intro e he
    simp [workerStopEvents] at he
  | cons lat rest ih =>
    intro e he
    rw [workerStopEvents] at he
    have hlat : lat ≤ grace := h lat (List.mem_cons_self lat rest)
    rw [if_pos hlat] at he
    rcases List.mem_cons.mp he with rfl | htail
    · exact ⟨k, rfl⟩
    · exact ih (k + 1) (fun d hd => h d (List.mem_cons_of_mem lat hd)) e htail

theorem workerStopEvents_mem (grace : Nat) (lats : List Nat) (k : Nat)
    (h : ∀ d ∈ lats, d ≤ grace) :
    ∀ i, i < lats.length → SEvent.workerStopped (k + i) ∈ workerStopEvents grace k lats := by
  induction lats generalizing k with
  | nil =>
    intro i hi
    simp at hi
  | cons lat rest ih =>
    intro i hi
    rw [workerStopEvents]
    have hlat : lat ≤ grace := h lat (List.mem_cons_self lat rest)
    rw [if_pos hlat]
    cases i with
    | zero => simp
    | succ m =>
      have hm : m < rest.length := by
        simp at hi
        omega
      have := ih (k + 1) (fun d hd => h d (List.mem_cons_of_mem lat hd)) m hm
      have harith : k + 1 + m = k + (m + 1) := by omega
      rw [harith] at this
      exact List.mem_cons_of_mem _ this

theorem workerStopEvents_no_snapshot (grace : Nat) (lats : List Nat) (k : Nat) :
    ∀ e ∈ workerStopEvents grace k lats, isSnapshotEvent e = false := by
  induction lats generalizing k with
  | nil =>
    intro e he
    simp [workerStopEvents] at he
  | cons lat rest ih =>
    intro e he
    rw [workerStopEvents] at he
    rcases List.mem_cons.mp he with rfl | htail
    · by_cases hlat : lat ≤ grace <;> simp [hlat, isSnapshotEvent]
    · exact ih (k + 1) e htail

theorem filter_isSnapshotEvent_eq_nil (l : List SEvent)
    (h : ∀ e ∈ l, isSnapshotEvent e = false) :
    l.filter isSnapshotEvent = [] := by
  induction l with
  | nil => rfl
  | cons e rest ih =>
    rw [List.filter_cons, h e (List.mem_cons_self e rest)]
    exact ih (fun x hx => h x (List.mem_cons_of_mem e hx))

/-- Store observed by the coordinator in the target-step scenario: GlobalStep
has reached 100. -/
def store100 : ParameterStore :=
  { blocks := [("w1", { value := 10, version := 3 })], globalStep := 100 }

/-- C7: once GlobalStep reaches the configured target the LifecycleCoordinator
leaves RUNNING, broadcasts stop to all WorkerAgents, every worker whose stop
latency is within the grace period reaches STOPPED (and none is abandoned),
exactly one final checkpoint is then written and it records global_step equal
to the target, and the coordinator transitions to STOPPED only after that
checkpoint event. -/
theorem c7_graceful_shutdown (target grace : Nat) (lat : List Nat) (s : ParameterStore)
    (hstep : s.globalStep = target) (hlat : ∀ d ∈ lat, d ≤ grace) :
    (coordinatorObserve target grace lat s).1 = CoordState.stopped
    ∧ (∀ i, i < lat.length →
        SEvent.workerStopped i ∈ (coordinatorObserve target grace lat s).2)
    ∧ (∀ i, SEvent.workerAbandoned i ∉ (coordinatorObserve target grace lat s).2)
    ∧ ((coordinatorObserve target grace lat s).2.filter isSnapshotEvent).length = 1
    ∧ SEvent.finalSnapshot { global_step := target, blocks := s.blocks } ∈
        (coordinatorObserve target grace lat s).2
    ∧ ∃ ws, (coordinatorObserve target grace lat s).2 =
          SEvent.broadcastStop :: (ws ++
            [SEvent.finalSnapshot { global_step := target, blocks := s.blocks },
             SEvent.coordStopped, SEvent.psExit])
        ∧ ∀ e ∈ ws, ∃ i, e = SEvent.workerStopped i := by
  have hge : target ≤ s.globalStep := by omega
  have hsnap : snapshot s = { global_step := target, blocks := s.blocks } := by
    simp [snapshot, hstep]
  simp only [coordinatorObserve, if_pos hge, hsnap]
  refine ⟨by trivial, ?_, ?_, ?_, ?_, ?_⟩
  · intro i hi
    have hmem := workerStopEvents_mem grace lat 0 hlat i hi
    rw [Nat.zero_add] at hmem
    exact List.mem_cons_of_mem _ (List.mem_append_left _ hmem)
  · intro i hmem
    rcases List.mem_cons.mp hmem with heq | hm
    · exact SEvent.noConfusion heq
    rcases List.mem_append.mp hm with hws | htail
    · obtain ⟨j, hj⟩ := workerStopEvents_all_stopped grace lat 0 hlat _ hws
      exact SEvent.noConfusion hj
    · simp at htail
  · have hws : (workerStopEvents grace 0 lat).filter isSnapshotEvent = [] :=
      filter_isSnapshotEvent_eq_nil _ (workerStopEvents_no_snapshot grace lat 0)
    simp [List.filter_cons, List.filter_append, hws, isSnapshotEvent]
  · refine List.mem_cons_of_mem _ (List.mem_append_right _ ?_)
    simp
  · exact ⟨workerStopEvents grace 0 lat, rfl, workerStopEvents_all_stopped grace lat 0 hlat⟩

/-- Witness for C7 at the target-step-100 scenario with grace period 5 and
two workers of stop latencies 1 and 2. -/
theorem c7_graceful_shutdown_witness :
    (coordinatorObserve 100 5 [1, 2] store100).1 = CoordState.stopped
    ∧ (∀ i, i < ([1, 2] : List Nat).length →
        SEvent.workerStopped i ∈ (coordinatorObserve 100 5 [1, 2] store100).2)
    ∧ (∀ i, SEvent.workerAbandoned i ∉ (coordinatorObserve 100 5 [1, 2] store100).2)
    ∧ ((coordinatorObserve 100 5 [1, 2] store100).2.filter isSnapshotEvent).length = 1
    ∧ SEvent.finalSnapshot { global_step := 100, blocks := store100.blocks } ∈
        (coordinatorObserve 100 5 [1, 2] store100).2
    ∧ ∃ ws, (coordinatorObserve 100 5 [1, 2] store100).2 =
          SEvent.broadcastStop :: (ws ++
            [SEvent.finalSnapshot { global_step := 100, blocks := store100.blocks },
             SEvent.coordStopped, SEvent.psExit])
        ∧ ∀ e ∈ ws, ∃ i, e = SEvent.workerStopped i :=
  c7_graceful_shutdown 100 5 [1, 2] store100 rfl (by decide)

/-- C9 counterexample: the claim includes that the parameter-server process
does not run forever once training is complete, yet in the notebook skeleton
the ps branch calls server.join, which never returns: the ps process is in
the joining state after every number of steps and never exits. -/
theorem c9_counterexample : ¬ psJoinExits := by
  intro h
  obtain ⟨n, hn⟩ := h
  rw [psRun_joining n] at hn
  exact PsProc.noConfusion hn

/-- C9 (amended): in the coordination layer modelled from the spec the
parameter-server process exits only after the LifecycleCoordinator reaches
STOPPED and no checkpoint write is in flight — psExit is the final event,
preceded by the completed finalSnapshot and by coordStopped — and the exit
does occur once the target step is reached; the ps branch of the notebook
skeleton, by contrast, calls server.join and never exits at all. -/
theorem c9_ps_exit_after_stopped (target grace : Nat) (lat : List Nat)
    (s : ParameterStore) (hstep : s.globalStep = target) :
    (∃ pre, (coordinatorObserve target grace lat s).2 = pre ++ [SEvent.psExit]
       ∧ SEvent.coordStopped ∈ pre ∧ SEvent.finalSnapshot (snapshot s) ∈ pre)
    ∧ SEvent.psExit ∈ (coordinatorObserve target grace lat s).2
    ∧ (∀ n, psRun n = PsProc.joining) := by
  have hge : target ≤ s.globalStep := by omega
  simp only [coordinatorObserve, if_pos hge]
  refine ⟨⟨SEvent.broadcastStop :: (workerStopEvents grace 0 lat ++
      [SEvent.finalSnapshot (snapshot s), SEvent.coordStopped]), ?_, ?_, ?_⟩, ?_,
    psRun_joining⟩
  · simp
  · simp
  · simp
  · simp

/-- Witness for C9 (amended) at the target-step-100 scenario. -/
theorem c9_ps_exit_after_stopped_witness :
    (∃ pre, (coordinatorObserve 100 5 [1, 2] store100).2 = pre ++ [SEvent.psExit]
       ∧ SEvent.coordStopped ∈ pre ∧ SEvent.finalSnapshot (snapshot store100) ∈ pre)
    ∧ SEvent.psExit ∈ (coordinatorObserve 100 5 [1, 2] store100).2
    ∧ (∀ n, psRun n = PsProc.joining) :=
  c9_ps_exit_after_stopped 100 5 [1, 2] store100 rfl

/-! ## Concurrency model of the store (modelled from the spec) -/

/-- Modelled from the spec: one in-flight push of a WorkerAgent, naming the
block it updates and the delta it merges. -/
structure PushJob where
  blockId : String
  delta : Int
deriving DecidableEq, Repr

/-- Modelled from the spec: the state of one worker execution unit: either
between pushes (ready, with the jobs still pending) or inside the critical
section of the per-block lock of its head job, before or after the atomic
commit of that job. -/
inductive WThread
  | ready (pending : List PushJob)
  | holding (job : PushJob) (committedFlag : Bool) (pending : List PushJob)
deriving DecidableEq, Repr

/-- Whether the thread currently holds the per-block lock of block b. -/
def holdsOn : WThread → String → Prop
  | WThread.ready _, _ => False
  | WThread.holding job _ _, b => job.blockId = b

/-- The atomic commit of one push inside the critical section: value, version
and GlobalStep move together in a single indivisible state change. -/
def commitPush (s : ParameterStore) (j : PushJob) : ParameterStore :=
  { blocks := updateBlock s.blocks j.blockId
      (fun blk => { value := blk.value + j.delta, version := blk.version + 1 }),
    globalStep := s.globalStep + 1 }

/-- Global state of the concurrent store: the committed store, the set of
currently held per-block locks, the worker threads, and the (ghost) list of
commits in the order they were accepted. -/
structure ConcState where
  store : ParameterStore
  locked : List String
  threads : Nat → WThread
  log : List PushJob

/-- Labels of the small-step semantics: which thread acquires, commits or
releases which block, or which pull executes with which result. -/
inductive CLabel
  | acquireL (t : Nat) (b : String)
  | commitL (t : Nat) (j : PushJob)
  | releaseL (t : Nat) (b : String)
  | pullL (ids : List String) (out : Except PsError (List (String × Int × Nat)))
deriving DecidableEq, Repr

/-- Modelled from the spec: interleaved small-step semantics of the store.
An updater must first acquire the per-block lock of its block (per-block
mutual exclusion; no global lock: only that one identifier is locked); the
commit then installs value, version and GlobalStep in one atomic step; the
release frees only that identifier. A pull carries no enabling condition at
all: it reads the committed store in any state, so it never blocks on
concurrent writers. -/
inductive CStep : ConcState → CLabel → ConcState → Prop
  | acquire (c : ConcState) (t : Nat) (job : PushJob) (pending : List PushJob)
      (hthread : c.threads t = WThread.ready (job :: pending))
      (hfree : job.blockId ∉ c.locked) :
      CStep c (CLabel.acquireL t job.blockId)
        { store := c.store, locked := job.blockId :: c.locked,
          threads := Function.update c.threads t (WThread.holding job false pending),
          log := c.log }
  | commitStep (c : ConcState) (t : Nat) (job : PushJob) (pending : List PushJob)
      (hthread : c.threads t = WThread.holding job false pending) :
      CStep c (CLabel.commitL t job)
        { store := commitPush c.store job, locked := c.locked,
          threads := Function.update c.threads t (WThread.holding job true pending),
          log := c.log ++ [job] }
  | releaseStep (c : ConcState) (t : Nat) (job : PushJob) (pending : List PushJob)
      (hthread : c.threads t = WThread.holding job true pending) :
      CStep c (CLabel.releaseL t job.blockId)
        { store := c.store, locked := c.locked.erase job.blockId,
          threads := Function.update c.threads t (WThread.ready pending),
          log := c.log }
  | pullStep (c : ConcState) (ids : List String) :
      CStep c (CLabel.pullL ids (pull c.store ids)) c

/-- Reflexive-transitive closure of the small-step relation, labels
forgotten. -/
inductive Reaches : ConcState → ConcState → Prop
  | refl (c : ConcState) : Reaches c c
  | tail {a b c : ConcState} {l : CLabel} : Reaches a b → CStep b l c → Reaches a c

/-- Initial concurrent state: the given store, no lock held, every thread
ready with its job list, empty commit log. -/
def initConc (s : ParameterStore) (jobs : Nat → List PushJob) : ConcState :=
  { store := s, locked := [], threads := fun t => WThread.ready (jobs t), log := [] }

theorem conc_inv (s0 : ParameterStore) (jobs : Nat → List PushJob) (c : ConcState)
    (h : Reaches (initConc s0 jobs) c) :
    (∀ t b, holdsOn (c.threads t) b → b ∈ c.locked)
    ∧ (∀ t u b, t ≠ u → holdsOn (c.threads t) b → holdsOn (c.threads u) b → False)
    ∧ c.store = c.log.foldl commitPush s0 := by
  induction h with
  | refl =>
    refine ⟨?_, ?_, rfl⟩
    · intro t b hb
      simp [initConc, holdsOn] at hb
    · intro t u b ht hb hb'
      simp [initConc, holdsOn] at hb
  | tail hreach hstep ih =>
    obtain ⟨ihLock, ihMutex, ihStore⟩ := ih
    cases hstep with
    | acquire t job pending hthread hfree =>
      dsimp only
      refine ⟨?_, ?_, ihStore⟩
      · intro u x hx
        by_cases hu : u = t
        · subst hu
          rw [Function.update_same] at hx
          simp only [holdsOn] at hx
          subst hx
          exact List.mem_cons_self _ _
        · rw [Function.update_noteq hu] at hx
          exact List.mem_cons_of_mem _ (ihLock u x hx)
      · intro u v x huv hu hv
        by_cases hu' : u = t
        · subst hu'
          rw [Function.update_same] at hu
          simp only [holdsOn] at hu
          rw [Function.update_noteq (Ne.symm huv)] at hv
          subst hu
          exact hfree (ihLock v _ hv)
        · rw [Function.update_noteq hu'] at hu
          by_cases hv' : v = t
          · subst hv'
            rw [Function.update_same] at hv
            simp only [holdsOn] at hv
            subst hv
            exact hfree (ihLock u _ hu)
          · rw [Function.update_noteq hv'] at hv
            exact ihMutex u v x huv hu hv
    | commitStep t job pending hthread =>
      dsimp only
      refine ⟨?_, ?_, ?_⟩
      · intro u x hx
        by_cases hu : u = t
        · subst hu
          rw [Function.update_same] at hx
          simp only [holdsOn] at hx
          refine ihLock u x ?_
          rw [hthread]
          simp only [holdsOn]
          exact hx
        · rw [Function.update_noteq hu] at hx
          exact ihLock u x hx
      · intro u v x huv hu hv
        by_cases hu' : u = t
        · subst hu'
          rw [Function.update_same] at hu
          simp only [holdsOn] at hu
          rw [Function.update_noteq (Ne.symm huv)] at hv
          refine ihMutex u v x huv ?_ hv
          rw [hthread]
          simp only [holdsOn]
          exact hu
        · rw [Function.update_noteq hu'] at hu
          by_cases hv' : v = t
          · subst hv'
            rw [Function.update_same] at hv
            simp only [holdsOn] at hv
            refine ihMutex u v x huv hu ?_
            rw [hthread]
            simp only [holdsOn]
            exact hv
          · rw [Function.update_noteq hv'] at hv
            exact ihMutex u v x huv hu hv
      · dsimp only
        rw [List.foldl_append, ← ihStore]
        rfl
    | releaseStep t job pending hthread =>
      dsimp only
      have htholds : ∀ a : ConcState, a.threads t = WThread.holding job true pending →
          holdsOn (a.threads t) job.blockId := by
        intro a ha
        rw [ha]
        exact rfl
      refine ⟨?_, ?_, ihStore⟩
      · intro u x hx
        by_cases hu : u = t
        · subst hu
          rw [Function.update_same] at hx
          simp only [holdsOn] at hx
        · rw [Function.update_noteq hu] at hx
          have hxmem := ihLock u x hx
          have hxne : x ≠ job.blockId := by
            intro hxe
            subst hxe
            exact ihMutex u t _ hu hx (htholds _ hthread)
          exact (List.mem_erase_of_ne hxne).mpr hxmem
      · intro u v x huv hu hv
        by_cases hu' : u = t
        · subst hu'
          rw [Function.update_same] at hu
          simp only [holdsOn] at hu
        · rw [Function.update_noteq hu'] at hu
          by_cases hv' : v = t
          · subst hv'
            rw [Function.update_same] at hv
            simp only [holdsOn] at hv
          · rw [Function.update_noteq hv'] at hv
            exact ihMutex u v x huv hu hv
    | pullStep ids =>
      exact ⟨ihLock, ihMutex, ihStore⟩

/-- Two-block store used to exhibit concurrent critical sections on
different blocks. -/
def twoBlockStore : ParameterStore :=
  { blocks := [("a", { value := 0, version := 0 }), ("b", { value := 0, version := 0 })],
    globalStep := 0 }

/-- Push of worker 0 in the two-block demonstration. -/
def jobA : PushJob := { blockId := "a", delta := 1 }

/-- Push of worker 1 in the two-block demonstration. -/
def jobB : PushJob := { blockId := "b", delta := 2 }

/-- Job assignment of the two-block demonstration: worker 0 pushes to block
a, worker 1 pushes to block b, all other threads are idle. -/
def twoJobs : Nat → List PushJob :=
  fun t => if t = 0 then [jobA] else if t = 1 then [jobB] else []

/-- State in which worker 0 holds the lock of block a. -/
def lockedA : ConcState :=
  { store := twoBlockStore, locked := [jobA.blockId],
    threads := Function.update (fun t => WThread.ready (twoJobs t)) 0
      (WThread.holding jobA false []),
    log := [] }

/-- State in which worker 0 holds the lock of block a and worker 1
simultaneously holds the lock of block b. -/
def lockedAB : ConcState :=
  { store := twoBlockStore, locked := [jobB.blockId, jobA.blockId],
    threads := Function.update (Function.update (fun t => WThread.ready (twoJobs t)) 0
      (WThread.holding jobA false [])) 1 (WThread.holding jobB false []),
    log := [] }

theorem step_to_lockedA :
    CStep (initConc twoBlockStore twoJobs) (CLabel.acquireL 0 jobA.blockId) lockedA :=
  CStep.acquire (initConc twoBlockStore twoJobs) 0 jobA [] rfl (by decide)

theorem step_to_lockedAB : CStep lockedA (CLabel.acquireL 1 jobB.blockId) lockedAB :=
  CStep.acquire lockedA 1 jobB [] rfl (by decide)

theorem reaches_lockedAB : Reaches (initConc twoBlockStore twoJobs) lockedAB :=
  Reaches.tail (Reaches.tail (Reaches.refl _) step_to_lockedA) step_to_lockedAB

theorem lockedAB_holds_both :
    holdsOn (lockedAB.threads 0) "a" ∧ holdsOn (lockedAB.threads 1) "b" := by
  constructor
  · show holdsOn (Function.update (Function.update (fun t => WThread.ready (twoJobs t)) 0
      (WThread.holding jobA false [])) 1 (WThread.holding jobB false []) 0) "a"
    rw [Function.update_noteq (by omega), Function.update_same]
    exact rfl
  · show holdsOn (Function.update (Function.update (fun t => WThread.ready (twoJobs t)) 0
      (WThread.holding jobA false [])) 1 (WThread.holding jobB false []) 1) "b"
    rw [Function.update_same]
    exact rfl

/-- C8: in every reachable state of the interleaved execution, the committed
store equals the initial store with exactly the committed pushes applied as
whole atomic commits, so a pull never returns a torn (partially applied)
value of any block; two updates to the same block never interleave
(per-block mutual exclusion of the lock holders); a pull step is enabled in
every state whatever locks are held, reading the committed store (pull never
blocks on concurrent writers); and updates to different blocks are not
serialised by any global lock: a state in which two workers simultaneously
occupy the critical sections of two different blocks is reachable. -/
theorem c8_no_torn_reads_per_block_locks (s0 : ParameterStore)
    (jobs : Nat → List PushJob) (c : ConcState)
    (h : Reaches (initConc s0 jobs) c) :
    c.store = c.log.foldl commitPush s0
    ∧ (∀ ids, pull c.store ids = pull (c.log.foldl commitPush s0) ids)
    ∧ (∀ t u b, t ≠ u → holdsOn (c.threads t) b → holdsOn (c.threads u) b → False)
    ∧ (∀ ids, CStep c (CLabel.pullL ids (pull c.store ids)) c)
    ∧ (∃ c' : ConcState, Reaches (initConc twoBlockStore twoJobs) c'
        ∧ holdsOn (c'.threads 0) "a" ∧ holdsOn (c'.threads 1) "b") := by
  obtain ⟨hLock, hMutex, hStore⟩ := conc_inv s0 jobs c h
  refine ⟨hStore, ?_, hMutex, ?_, ?_⟩
  · intro ids
    rw [hStore]
  · intro ids
    exact CStep.pullStep c ids
  · exact ⟨lockedAB, reaches_lockedAB, lockedAB_holds_both.1, lockedAB_holds_both.2⟩

/-- Witness for C8 at the initial state of the two-block demonstration. -/
theorem c8_no_torn_reads_per_block_locks_witness :
    (initConc twoBlockStore twoJobs).store =
      (initConc twoBlockStore twoJobs).log.foldl commitPush twoBlockStore
    ∧ (∀ ids, pull (initConc twoBlockStore twoJobs).store ids =
        pull ((initConc twoBlockStore twoJobs).log.foldl commitPush twoBlockStore) ids)
    ∧ (∀ t u b, t ≠ u → holdsOn ((initConc twoBlockStore twoJobs).threads t) b →
        holdsOn ((initConc twoBlockStore twoJobs).threads u) b → False)
    ∧ (∀ ids, CStep (initConc twoBlockStore twoJobs)
        (CLabel.pullL ids (pull (initConc twoBlockStore twoJobs).store ids))
        (initConc twoBlockStore twoJobs))
    ∧ (∃ c' : ConcState, Reaches (initConc twoBlockStore twoJobs) c'
        ∧ holdsOn (c'.threads 0) "a" ∧ holdsOn (c'.threads 1) "b") :=
  c8_no_torn_reads_per_block_locks twoBlockStore twoJobs
    (initConc twoBlockStore twoJobs) (Reaches.refl _)

end DTF
